import Mathlib

/-!
Verification development for the shepherd task-execution shim.

The Go sources are embedded shallowly: pure helpers become Lean functions,
the filesystem and external processes become explicit state / outcome
oracles, and Go panics are modelled as a distinct `panicked` outcome,
separate from normally returned errors.
-/

namespace Shepherd

/-! ## Glob matching (Go `path/filepath.Match`)

`matchesInclusionPattern` calls `filepath.Match` and discards its error
value, so a malformed pattern behaves as a non-match.  The embedding below
returns `false` in every case where Go would report `ErrBadPattern`. -/

/-- Models Go `getEsc`: reads one (possibly backslash-escaped) character of a
bracket class.  Fails on an empty chunk, a leading `-` or `]`, a dangling
escape, or when the class would end immediately after the character (Go
requires the remainder to be non-empty because the class must be closed). -/
def getEsc (l : List Char) : Option (Char × List Char) :=
  match l with
  | [] => none
  | c :: rest =>
    if c = '-' ∨ c = ']' then none
    else if c = '\\' then
      match rest with
      | [] => none
      | d :: rest2 => if rest2.isEmpty then none else some (d, rest2)
    else if rest.isEmpty then none else some (c, rest)

/-- Models the bracket-class loop of Go `matchChunk` (case `'['`): consumes
ranges until an (unescaped, non-first) `]`, accumulating whether the rune `r`
fell in any range.  `none` models `ErrBadPattern`.  The loop is driven by an
explicit fuel parameter; every iteration consumes at least one pattern
character, so the wrapper `matchClassAux` below always supplies enough fuel
and the fuel-exhausted branch is never reached. -/
def matchClassAuxFuel : Nat → List Char → Char → Bool → Nat → Option (Bool × List Char)
  | 0, _, _, _, _ => none
  | Nat.succ fuel, chunk, r, m, nrange =>
    if chunk.head? = some ']' ∧ 0 < nrange then some (m, chunk.tail)
    else
      match getEsc chunk with
      | none => none
      | some (lo, rest) =>
        match rest with
        | [] => none
        | c2 :: rest2 =>
          if c2 = '-' then
            match getEsc rest2 with
            | none => none
            | some (hi, rest3) =>
              matchClassAuxFuel fuel rest3 r (m || (decide (lo ≤ r) && decide (r ≤ hi))) (nrange + 1)
          else matchClassAuxFuel fuel (c2 :: rest2) r (m || (lo == r)) (nrange + 1)

/-- Runs the bracket-class loop with enough fuel for the whole chunk: every
iteration consumes at least one pattern character. -/
def matchClassAux (chunk : List Char) (r : Char) (m : Bool) (nrange : Nat) :
    Option (Bool × List Char) :=
  matchClassAuxFuel (chunk.length + 1) chunk r m nrange

/-- Models the `'['` case of Go `matchChunk`: optional leading `^` negates the
class.  Returns whether the character matched and the pattern remainder. -/
def matchClass (p : List Char) (r : Char) : Option (Bool × List Char) :=
  match p with
  | c :: rest =>
    if c = '^' then
      match matchClassAux rest r false 0 with
      | none => none
      | some (m, p') => some (!m, p')
    else matchClassAux (c :: rest) r false 0
  | [] => matchClassAux [] r false 0

/-- Models Go `filepath.Match` on rune lists for the unix separator `/`:
`*` matches any run of non-separator characters, `?` one non-separator
character, `[...]` a character class, `\\` escapes the next pattern
character.  Where Go reports `ErrBadPattern` this returns `false`, which is
what the call sites observe after discarding the error.  The recursion is
driven by an explicit fuel parameter; each step either shortens the pattern
or shortens the name, so `goMatch` below always supplies enough fuel and the
fuel-exhausted branch is never reached. -/
def goMatchFuel : Nat → List Char → List Char → Bool
  | 0, _, _ => false
  | Nat.succ fuel, pat, s =>
    match pat, s with
    | [], s => s.isEmpty
    | '*' :: p, s =>
      goMatchFuel fuel p s ||
        (match s with
         | [] => false
         | c :: s2 => !(c == '/') && goMatchFuel fuel ('*' :: p) s2)
    | '?' :: p, s =>
      (match s with
       | [] => false
       | c :: s2 => !(c == '/') && goMatchFuel fuel p s2)
    | '[' :: p, s =>
      (match s with
       | [] => false
       | c :: s2 =>
         match matchClass p c with
         | none => false
         | some (ok, p') => ok && goMatchFuel fuel p' s2)
    | '\\' :: p, s =>
      (match p, s with
       | [], _ => false
       | _ :: _, [] => false
       | c :: p2, d :: s2 => (c == d) && goMatchFuel fuel p2 s2)
    | c :: p, s =>
      (match s with
       | [] => false
       | d :: s2 => (c == d) && goMatchFuel fuel p s2)

/-- Runs the glob matcher with enough fuel for pattern and name. -/
def goMatch (p s : List Char) : Bool :=
  goMatchFuel (p.length + s.length + 1) p s

/-- Models the call `filepath.Match(pattern, name)` with the error dropped. -/
def filepathMatch (pattern name : String) : Bool :=
  goMatch pattern.data name.data

/-- Models Go `path.Base`: empty path gives `"."`, trailing slashes are
stripped, all-slash paths give `"/"`, otherwise the component after the last
slash. -/
def pathBase (p : String) : String :=
  if p = "" then "."
  else
    let rev := p.data.reverse.dropWhile (fun c => c == '/')
    if rev.isEmpty then "/"
    else String.mk (rev.takeWhile (fun c => !(c == '/'))).reverse

/-- Models the Go struct `Filter`: one glob pattern plus an exclude flag. -/
structure Filter where
  pattern : String
  exclude : Bool
deriving DecidableEq

/-- Models Go `matchesInclusionPattern`: starts from `exclude = true`, lets
every filter whose pattern matches the full name or its base name overwrite
the decision, and returns the negation of the final flag. -/
def matchesInclusionPattern (name : String) (filters : List Filter) : Bool :=
  let baseName := pathBase name
  !(filters.foldl
      (fun exclude filter =>
        if filepathMatch filter.pattern name || filepathMatch filter.pattern baseName then
          filter.exclude
        else exclude)
      true)

/-! ## Claim C1: last matching filter wins -/

/-- A filter matches when its glob pattern matches the full relative name or
the base name — the test applied to each filter by `matchesInclusionPattern`. -/
def filterMatches (name baseName : String) (f : Filter) : Bool :=
  filepathMatch f.pattern name || filepathMatch f.pattern baseName

theorem foldl_filter_decision (name baseName : String) :
    ∀ (filters : List Filter) (init : Bool),
      filters.foldl
          (fun exclude filter =>
            if filepathMatch filter.pattern name || filepathMatch filter.pattern baseName then
              filter.exclude
            else exclude)
          init =
        (match filters.reverse.find? (filterMatches name baseName) with
         | some f => f.exclude
         | none => init) := by
  intro filters
  induction filters with
  | nil => intro init; rfl
  | cons f fs ih =>
    intro init
    simp only [List.foldl_cons, List.reverse_cons, List.find?_append, ih]
    cases hfind : fs.reverse.find? (filterMatches name baseName) with
    | some g => simp [Option.or]
    | none =>
      simp only [Option.or_none, Option.none_or, List.find?_cons, List.find?_nil]
      cases hf : filterMatches name baseName f with
      | true => simp [filterMatches] at hf; simp [hf]
      | false =>
        simp only [filterMatches] at hf
        simp [hf]

/-- Claim C1: for every filter list and every path, the inclusion decision of
the output selector equals the negated exclude flag of the last filter (in
list order) whose glob pattern matches the full relative path or its base
name, and a path matched by no filter is excluded. -/
theorem matchesInclusionPattern_last_match_wins (name : String) (filters : List Filter) :
    matchesInclusionPattern name filters =
      (match filters.reverse.find? (filterMatches name (pathBase name)) with
       | some f => !f.exclude
       | none => false) := by
  simp only [matchesInclusionPattern, foldl_filter_decision]
  cases filters.reverse.find? (filterMatches name (pathBase name)) <;> simp

/-! ## Claim C10: the filter chain is applied to the working-directory root

`findNewFiles` walks the working directory; the walk callback sees the root
itself under the relative path `"."` and prunes it (returning no files at
all) when the filter decision for `"."` is exclusion. -/

/-- A filesystem tree: the shape `filepath.Walk` traverses.  File contents are
irrelevant to output selection, so only names and structure are kept. -/
inductive FSNode where
  | file (name : String)
  | dir (name : String) (children : List FSNode)

/-- Name of a node as it appears inside its parent directory. -/
def FSNode.nodeName : FSNode → String
  | .file n => n
  | .dir n _ => n

/-- Relative path of a child found under `rel`; `filepath.Rel` reports the
root itself as `"."` and entries below it without a leading `"./"`. -/
def childRelPath (rel name : String) : String :=
  if rel = "." then name else rel ++ "/" ++ name

mutual

/-- Models the walk callback of `findNewFiles` on one node: a directory whose
relative path fails the filter decision is pruned (`filepath.SkipDir`), a
localized file is skipped, and remaining files are collected when the filter
decision includes them. -/
def walkCollect (filters : List Filter) (wasLocalized : String → Bool) :
    String → FSNode → List String
  | relPath, .file _ =>
    if wasLocalized relPath then []
    else if matchesInclusionPattern relPath filters then [relPath] else []
  | relPath, .dir _ children =>
    if matchesInclusionPattern relPath filters then
      walkChildren filters wasLocalized relPath children
    else []

/-- Visits the entries of a directory in sequence, as `filepath.Walk` does. -/
def walkChildren (filters : List Filter) (wasLocalized : String → Bool) :
    String → List FSNode → List String
  | _, [] => []
  | relPath, c :: rest =>
    walkCollect filters wasLocalized (childRelPath relPath c.nodeName) c ++
      walkChildren filters wasLocalized relPath rest

end

/-- Models Go `findNewFiles`: walk the working directory starting at the root
node, whose relative path is `"."`. -/
def findNewFiles (root : FSNode) (filters : List Filter) (wasLocalized : String → Bool) :
    List String :=
  walkCollect filters wasLocalized "." root

theorem matchesInclusionPattern_of_no_match (name : String) (filters : List Filter)
    (h : ∀ f ∈ filters, filterMatches name (pathBase name) f = false) :
    matchesInclusionPattern name filters = false := by
  rw [matchesInclusionPattern_last_match_wins]
  cases hfind : filters.reverse.find? (filterMatches name (pathBase name)) with
  | none => rfl
  | some g =>
    have hg := List.find?_some hfind
    have hmem : g ∈ filters := List.mem_reverse.mp (List.mem_of_find?_eq_some hfind)
    rw [h g hmem] at hg
    exact absurd hg (by simp)

/-- Claim C10: when no filter pattern matches `"."` (whose base name is also
`"."`), the root directory itself is pruned and the selector returns no
files, regardless of the tree below it. -/
theorem root_pruned_when_unmatched (dirName : String) (children : List FSNode)
    (filters : List Filter) (wasLocalized : String → Bool)
    (h : ∀ f ∈ filters, filepathMatch f.pattern "." = false) :
    findNewFiles (FSNode.dir dirName children) filters wasLocalized = [] := by
  have hb : pathBase "." = "." := rfl
  have hno : ∀ f ∈ filters, filterMatches "." (pathBase ".") f = false := by
    intro f hf
    simp [filterMatches, hb, h f hf]
  simp only [findNewFiles, walkCollect, matchesInclusionPattern_of_no_match "." filters hno]
  simp

/-- Witness for C10 at concrete inputs: with the single include filter
`*.txt`, which does not match `"."`, the selector returns nothing even
though the file `a.txt` inside the tree matches the include pattern. -/
theorem root_pruned_when_unmatched_witness :
    (∀ f ∈ [Filter.mk "*.txt" false], filepathMatch f.pattern "." = false) ∧
      findNewFiles (FSNode.dir "work" [FSNode.file "a.txt"]) [Filter.mk "*.txt" false]
          (fun _ => false) = [] ∧
      filepathMatch "*.txt" "a.txt" = true :=
  ⟨by decide,
   root_pruned_when_unmatched "work" [FSNode.file "a.txt"] [Filter.mk "*.txt" false]
     (fun _ => false) (by decide),
   by decide⟩

/-! ## Data model (Go structs `Download`, `UploadPatterns`, `Parameters`) -/

/-- Models the Go struct `Download`. -/
structure Download where
  sourceURL : String
  destinationPath : String
  executable : Bool
  symlinkSafe : Bool
deriving DecidableEq

/-- Models the Go struct `UploadPatterns`. -/
structure UploadPatterns where
  filters : List Filter
  destinationURLPrefix : String
deriving DecidableEq

/-- Models the Go struct `Parameters`. -/
structure Parameters where
  uploads : Option UploadPatterns
  downloads : List Download
  dockerImage : String
  command : List String
  workingPath : String
  resultPath : String
  stdoutPath : String
  stderrPath : String
deriving DecidableEq

/-! ## Remote-reference grammar and validation (claim C7) -/

/-- Models `strings.Contains` scanning the haystack left to right. -/
def strContainsAux (needle : List Char) : List Char → Bool
  | [] => needle.isEmpty
  | c :: rest => needle.isPrefixOf (c :: rest) || strContainsAux needle rest

/-- Models `strings.Contains(haystack, needle)`. -/
def strContains (haystack needle : String) : Bool :=
  strContainsAux needle.data haystack.data

/-- Models `strings.HasPrefix(s, pre)`. -/
def strStartsWith (s pre : String) : Bool :=
  pre.data.isPrefixOf s.data

/-- Leftmost position at which the package-level regular expression
`gs://([^/]+)/?(.*)$` matches: an occurrence of `gs://` followed by at least
one non-slash character (`[^/]+` needs one character, `/?` and `(.*)$` then
always succeed).  Returns the text after that `gs://`. -/
def gsMatchSuffix : List Char → Option (List Char)
  | 'g' :: 's' :: ':' :: '/' :: '/' :: c :: rest =>
    if c = '/' then gsMatchSuffix ('s' :: ':' :: '/' :: '/' :: c :: rest)
    else some (c :: rest)
  | _ :: rest => gsMatchSuffix rest
  | [] => none

/-- Models `splitGSCPath` (`GSCPathExpr.FindStringSubmatch` plus the two
submatch extractions): the bucket is the maximal run of non-slash characters
after `gs://`, the key is what follows an optional single `/`.  `none` models
the index-out-of-range panic Go reaches when the expression does not match. -/
def splitGSCPath (url : String) : Option (String × String) :=
  match gsMatchSuffix url.data with
  | none => none
  | some s =>
    let bucket := s.takeWhile (fun c => !(c == '/'))
    let rest := s.dropWhile (fun c => !(c == '/'))
    let key :=
      match rest with
      | '/' :: r => r
      | r => r
    some (String.mk bucket, String.mk key)

/-- The error values produced by the validators, keeping the offending
string from the Go error messages. -/
inductive ValidationError where
  | emptyCommand
  | notGsURL (url : String)
  | notRelative (path : String)
  | parentRef (path : String)
deriving DecidableEq

/-- Models `validateURL`: error unless `GSCPathExpr.MatchString(url)`. -/
def validateURL (url : String) : Option ValidationError :=
  if (gsMatchSuffix url.data).isSome then none else some (.notGsURL url)

/-- Models `validatePath`: rejects absolute paths and paths containing the
substring `".."`. -/
def validatePath (path : String) : Option ValidationError :=
  if strStartsWith path "/" then some (.notRelative path)
  else if strContains path ".." then some (.parentRef path)
  else none

/-- Models `validateParameters`: the Go function keeps one `err` variable and
runs each later check only while `err` is still nil, which is first-error
(short-circuit) semantics over a fixed checking order. -/
def validateParameters (params : Parameters) : Option ValidationError :=
  if params.command.isEmpty then some .emptyCommand
  else
    (match params.uploads with
     | some u =>
       let dst := UploadPatterns.destinationURLPrefix u
       validateURL dst
     | none => none) <|>
    (params.downloads.foldl
      (fun err download =>
        err <|> validateURL download.sourceURL <|> validatePath download.destinationPath)
      none) <|>
    (if params.workingPath = "" then none else validatePath params.workingPath) <|>
    (if params.stdoutPath = "" then none else validatePath params.stdoutPath) <|>
    (if params.stderrPath = "" then none else validatePath params.stderrPath) <|>
    (if params.resultPath = "" then none else validatePath params.resultPath)

/-- First error among a list of check results. -/
def firstSome : List (Option ValidationError) → Option ValidationError
  | [] => none
  | o :: rest => o <|> firstSome rest

/-- The validation checks, listed in the order the source performs them. -/
def checksInOrder (params : Parameters) : List (Option ValidationError) :=
  (if params.command.isEmpty then some .emptyCommand else none) ::
  (match params.uploads with
   | some u =>
     let dst := UploadPatterns.destinationURLPrefix u
     validateURL dst
   | none => none) ::
  (params.downloads.flatMap
     (fun download => [validateURL download.sourceURL, validatePath download.destinationPath]) ++
   [if params.workingPath = "" then none else validatePath params.workingPath,
    if params.stdoutPath = "" then none else validatePath params.stdoutPath,
    if params.stderrPath = "" then none else validatePath params.stderrPath,
    if params.resultPath = "" then none else validatePath params.resultPath])

/-- A remote reference passes the grammar used by `validateURL`. -/
def urlValid (url : String) : Bool := (gsMatchSuffix url.data).isSome

/-- A relative path passes `validatePath`. -/
def pathValid (path : String) : Bool :=
  !(strStartsWith path "/") && !(strContains path "..")

theorem some_orElse (a : ValidationError) (b : Option ValidationError) :
    (some a <|> b) = some a := rfl

theorem none_orElse (b : Option ValidationError) : (none <|> b) = b := rfl

theorem orElse_none (a : Option ValidationError) : (a <|> none) = a := by
  cases a <;> rfl

theorem orElse_assoc (a b c : Option ValidationError) :
    ((a <|> b) <|> c) = (a <|> (b <|> c)) := by
  cases a <;> rfl

theorem firstSome_append (l1 l2 : List (Option ValidationError)) :
    firstSome (l1 ++ l2) = (firstSome l1 <|> firstSome l2) := by
  induction l1 with
  | nil => simp [firstSome]
  | cons o rest ih => simp [firstSome, ih, orElse_assoc]

theorem foldl_orElse (g : Download → Option ValidationError) :
    ∀ (l : List Download) (e : Option ValidationError),
      l.foldl (fun err d => err <|> g d) e = (e <|> firstSome (l.map g)) := by
  intro l
  induction l with
  | nil => intro e; cases e <;> simp [firstSome]
  | cons d rest ih =>
    intro e
    simp only [List.foldl_cons, List.map_cons, firstSome, ih, orElse_assoc]

theorem firstSome_pair_flatMap (u v : Download → Option ValidationError) :
    ∀ l : List Download,
      firstSome (l.flatMap fun d => [u d, v d]) = firstSome (l.map fun d => (u d <|> v d)) := by
  intro l
  induction l with
  | nil => rfl
  | cons d rest ih =>
    rw [List.flatMap_cons, List.map_cons]
    rw [show ([u d, v d] ++ rest.flatMap fun x => [u x, v x]) =
      u d :: v d :: (rest.flatMap fun x => [u x, v x]) from rfl]
    simp only [firstSome, ih, orElse_assoc]

theorem firstSome_eq_none {l : List (Option ValidationError)} :
    firstSome l = none ↔ ∀ o ∈ l, o = none := by
  induction l with
  | nil => simp [firstSome]
  | cons o rest ih =>
    cases o <;> simp [firstSome, some_orElse, none_orElse, ih]

theorem validateURL_eq_none (url : String) :
    validateURL url = none ↔ urlValid url = true := by
  simp only [validateURL, urlValid]
  split <;> simp_all

theorem validatePath_eq_none (path : String) :
    validatePath path = none ↔ pathValid path = true := by
  simp only [validatePath, pathValid]
  split
  · simp_all
  · split <;> simp_all

theorem orElse_eq_none (a b : Option ValidationError) :
    ((a <|> b) = none) ↔ (a = none ∧ b = none) := by
  cases a <;> simp [some_orElse, none_orElse]

theorem validateParameters_eq_firstSome (params : Parameters) :
    validateParameters params = firstSome (checksInOrder params) := by
  simp only [validateParameters, checksInOrder, firstSome, firstSome_append,
    firstSome_pair_flatMap, foldl_orElse, none_orElse, orElse_none]
  by_cases hc : params.command.isEmpty
  · simp [hc, some_orElse]
  · simp [hc, none_orElse]

/-- Claim C7: `validateParameters` fails exactly when the command vector is
empty, some remote reference fails the remote-reference grammar, or some
relative path is absolute or contains a parent-directory segment; it returns
the first violation in the source's checking order; `/abs/path` and `a/../b`
are rejected and `rel/path` is accepted. -/
theorem validateParameters_spec (params : Parameters) :
    validateParameters params = firstSome (checksInOrder params) ∧
    (validateParameters params = none ↔
      (params.command ≠ [] ∧
       (∀ fs dst, params.uploads = some ⟨fs, dst⟩ → urlValid dst = true) ∧
       (∀ d ∈ params.downloads,
          urlValid d.sourceURL = true ∧ pathValid d.destinationPath = true) ∧
       (params.workingPath ≠ "" → pathValid params.workingPath = true) ∧
       (params.stdoutPath ≠ "" → pathValid params.stdoutPath = true) ∧
       (params.stderrPath ≠ "" → pathValid params.stderrPath = true) ∧
       (params.resultPath ≠ "" → pathValid params.resultPath = true))) ∧
    validatePath "/abs/path" = some (.notRelative "/abs/path") ∧
    validatePath "a/../b" = some (.parentRef "a/../b") ∧
    validatePath "rel/path" = none := by
  refine ⟨validateParameters_eq_firstSome params, ?_, by decide, by decide, by decide⟩
  rw [validateParameters]
  by_cases hc : params.command.isEmpty
  · constructor
    · intro h
      rw [if_pos hc] at h
      exact absurd h (by simp)
    · rintro ⟨hne, -⟩
      exact absurd (List.isEmpty_iff.mp hc) hne
  · rw [if_neg hc]
    simp only [orElse_eq_none, foldl_orElse, none_orElse]
    constructor
    · rintro ⟨hA, hF, hW, hX, hY, hZ⟩
      refine ⟨?_, ?_, ?_, ?_, ?_, ?_, ?_⟩
      · intro hceq
        exact hc (by simp [hceq])
      · intro fs dst hup
        rw [hup] at hA
        exact (validateURL_eq_none dst).mp hA
      · intro d hd
        have hg := firstSome_eq_none.mp hF _ (List.mem_map_of_mem _ hd)
        have := (orElse_eq_none _ _).mp hg
        exact ⟨(validateURL_eq_none _).mp this.1, (validatePath_eq_none _).mp this.2⟩
      · intro hne
        rw [if_neg hne] at hW
        exact (validatePath_eq_none _).mp hW
      · intro hne
        rw [if_neg hne] at hX
        exact (validatePath_eq_none _).mp hX
      · intro hne
        rw [if_neg hne] at hY
        exact (validatePath_eq_none _).mp hY
      · intro hne
        rw [if_neg hne] at hZ
        exact (validatePath_eq_none _).mp hZ
    · rintro ⟨-, hup, hdl, hw, hso, hse, hr⟩
      refine ⟨?_, ?_, ?_, ?_, ?_, ?_⟩
      · cases hu : params.uploads with
        | none => rfl
        | some u =>
          obtain ⟨fs, dst⟩ := u
          exact (validateURL_eq_none dst).mpr (hup fs dst hu)
      · refine firstSome_eq_none.mpr ?_
        intro o ho
        obtain ⟨d, hd, rfl⟩ := List.mem_map.mp ho
        exact (orElse_eq_none _ _).mpr
          ⟨(validateURL_eq_none _).mpr (hdl d hd).1, (validatePath_eq_none _).mpr (hdl d hd).2⟩
      · by_cases hne : params.workingPath = ""
        · rw [if_pos hne]
        · rw [if_neg hne]
          exact (validatePath_eq_none _).mpr (hw hne)
      · by_cases hne : params.stdoutPath = ""
        · rw [if_pos hne]
        · rw [if_neg hne]
          exact (validatePath_eq_none _).mpr (hso hne)
      · by_cases hne : params.stderrPath = ""
        · rw [if_pos hne]
        · rw [if_neg hne]
          exact (validatePath_eq_none _).mpr (hse hne)
      · by_cases hne : params.resultPath = ""
        · rw [if_pos hne]
        · rw [if_neg hne]
          exact (validatePath_eq_none _).mpr (hr hne)

/-! ## Direct-transfer localization (claim C2)

The filesystem is modelled as a map from (joined) path to modification
time; `none` plays the role of a stat error / missing file.  Modification
times are abstract numbers. -/

/-- Abstract modification time (Go `time.Time`, compared with `Equal`). -/
abbrev MTime := Nat

/-- Models Go `path.Join(a, b)` for the already-clean paths used by the
program (the `path.Clean` normalization is omitted; no claim depends on
it). -/
def pathJoin (a b : String) : String :=
  if a = "" then b else if b = "" then a else a ++ "/" ++ b

/-- Models the `Downloader` struct: the StagingRecord table
(`downloadTimestamps`) plus the working directory.  The GCS client is
replaced by the `RemoteEnv` oracle. -/
structure Downloader where
  downloadTimestamps : List (String × MTime)
  workdir : String

/-- Environment oracle for one `Prepare` run: whether the remote read of a
source URL succeeds, and the modification time the filesystem assigns when
a destination file is written. -/
structure RemoteEnv where
  remoteOK : String → Bool
  writeTime : String → MTime

/-- Models `Downloader.WasLocalized`: stat the joined path (a stat error
yields `false`), then require a StagingRecord for the relative path whose
recorded time equals the current modification time. -/
def Downloader.WasLocalized (d : Downloader) (fs : String → Option MTime) (p : String) : Bool :=
  match fs (pathJoin d.workdir p) with
  | none => false
  | some mt =>
    match List.lookup p d.downloadTimestamps with
    | some origTime => origTime == mt
    | none => false

/-- Models `Downloader.download`: the parent directory is ensured (modelled
as always succeeding), the destination is opened with `O_EXCL` (failing when
a file already exists there), then the remote object is streamed in (the
client is the `remoteOK` oracle); on success the destination carries the
oracle's `writeTime`. -/
def downloadOne (env : RemoteEnv) (workdir : String) (fs : String → Option MTime)
    (dl : Download) : Except String ((String → Option MTime) × String) :=
  let dstPath := pathJoin workdir dl.destinationPath
  if (fs dstPath).isSome then .error "destination already exists"
  else
    let fs2 := fun q => if q = dstPath then some (env.writeTime dstPath) else fs q
    if env.remoteOK dl.sourceURL then .ok (fs2, dstPath)
    else .error "remote read failed"

/-- Models `Downloader.Prepare`: download each item in order, abort on the
first failure, and after each successful download record a StagingRecord
with the modification time observed by the stat of the destination.  The
`"stat failed"` branch models the Go panic there; it is unreachable because
the destination was just written. -/
def Downloader.Prepare (env : RemoteEnv) :
    Downloader → (String → Option MTime) → List Download →
    Except String (Downloader × (String → Option MTime))
  | d, fs, [] => .ok (d, fs)
  | d, fs, dl :: rest =>
    match downloadOne env d.workdir fs dl with
    | .error e => .error e
    | .ok (fs2, dstPath) =>
      match fs2 dstPath with
      | none => .error "stat failed after download"
      | some t =>
        Downloader.Prepare env
          { d with downloadTimestamps := (dl.destinationPath, t) :: d.downloadTimestamps }
          fs2 rest

/-- Every StagingRecord's recorded time is the current modification time of
the file at the joined destination path. -/
def RecordSound (workdir : String) (ts : List (String × MTime))
    (fs : String → Option MTime) : Prop :=
  ∀ p t, List.lookup p ts = some t → fs (pathJoin workdir p) = some t

theorem prepare_invariant (env : RemoteEnv) :
    ∀ (dls : List Download) (d : Downloader) (fs : String → Option MTime)
      (d' : Downloader) (fs' : String → Option MTime),
      Downloader.Prepare env d fs dls = .ok (d', fs') →
      RecordSound d.workdir d.downloadTimestamps fs →
      d'.workdir = d.workdir ∧
      RecordSound d.workdir d'.downloadTimestamps fs' ∧
      (∀ p t, List.lookup p d.downloadTimestamps = some t →
         List.lookup p d'.downloadTimestamps = some t) ∧
      (∀ dl ∈ dls, ∃ t, List.lookup dl.destinationPath d'.downloadTimestamps = some t) ∧
      (∀ p, List.lookup p d'.downloadTimestamps ≠ none →
         p ∈ dls.map Download.destinationPath ∨
           List.lookup p d.downloadTimestamps ≠ none) := by
  intro dls
  induction dls with
  | nil =>
    intro d fs d' fs' hprep hsound
    rw [Downloader.Prepare] at hprep
    cases hprep
    exact ⟨rfl, hsound, fun p t h => h, by simp, by simp⟩
  | cons dl rest ih =>
    intro d fs d' fs' hprep hsound
    rw [Downloader.Prepare, downloadOne] at hprep
    simp only [] at hprep
    by_cases hex : (fs (pathJoin d.workdir dl.destinationPath)).isSome
    · rw [if_pos hex] at hprep
      exact absurd hprep (by simp)
    · rw [if_neg hex] at hprep
      have hnone : fs (pathJoin d.workdir dl.destinationPath) = none :=
        Option.not_isSome_iff_eq_none.mp hex
      by_cases hrem : env.remoteOK dl.sourceURL
      · rw [if_pos hrem] at hprep
        simp only [eq_self_iff_true, if_true] at hprep
        set dstPath := pathJoin d.workdir dl.destinationPath with hdst
        set fs2 : String → Option MTime :=
          fun q => if q = dstPath then some (env.writeTime dstPath) else fs q with hfs2
        set d2 : Downloader :=
          { d with downloadTimestamps :=
              (dl.destinationPath, env.writeTime dstPath) :: d.downloadTimestamps } with hd2
        have hsound2 : RecordSound d2.workdir d2.downloadTimestamps fs2 := by
          intro p t hl
          by_cases hpd : p = dl.destinationPath
          · subst hpd
            simp only [hd2, List.lookup, beq_self_eq_true, Option.some.injEq] at hl
            simp [hfs2, ← hl]
          · simp only [hd2, List.lookup] at hl
            rw [show (p == dl.destinationPath) = false from beq_eq_false_iff_ne.mpr hpd] at hl
            simp only [] at hl
            have hfsp := hsound p t hl
            have hne : pathJoin d.workdir p ≠ dstPath := by
              intro he
              rw [he] at hfsp
              rw [hnone] at hfsp
              exact absurd hfsp (by simp)
            simp [hfs2, hne, hfsp]
        have hw2 : d2.workdir = d.workdir := rfl
        obtain ⟨hw, hs, hpres, hmem, hdom⟩ := ih d2 fs2 d' fs' hprep hsound2
        refine ⟨hw.trans hw2, by rw [hw2] at hs; exact hs, ?_, ?_, ?_⟩
        · intro p t hl
          apply hpres
          by_cases hpd : p = dl.destinationPath
          · exfalso
            have hfsp := hsound p t hl
            rw [hpd] at hfsp
            rw [← hdst] at hfsp
            rw [hnone] at hfsp
            exact absurd hfsp (by simp)
          · simp only [hd2, List.lookup]
            rw [show (p == dl.destinationPath) = false from beq_eq_false_iff_ne.mpr hpd]
            exact hl
        · intro dl2 hdl2
          rcases List.mem_cons.mp hdl2 with heq | hmem2
          · subst heq
            exact ⟨env.writeTime dstPath,
              hpres _ _ (by simp [hd2, List.lookup])⟩
          · exact hmem dl2 hmem2
        · intro p hp
          rcases hdom p hp with hmem2 | hne
          · exact Or.inl (by simp only [List.map_cons, List.mem_cons]; exact Or.inr hmem2)
          · by_cases hpd : p = dl.destinationPath
            · exact Or.inl (by simp [hpd])
            · refine Or.inr ?_
              simp only [hd2, List.lookup] at hne
              rw [show (p == dl.destinationPath) = false from beq_eq_false_iff_ne.mpr hpd] at hne
              exact hne
      · rw [if_neg hrem] at hprep
        exact absurd hprep (by simp)

/-- Claim C2: starting from a fresh `Downloader`, after a successful
`Prepare` every staged path reports `WasLocalized = true`; a staged path
whose modification time subsequently changes reports `false`; a path never
passed to `Prepare` reports `false` against any filesystem; and in general
`WasLocalized p` holds iff a StagingRecord exists for `p` whose recorded
time equals `p`'s current modification time. -/
theorem wasLocalized_after_prepare (env : RemoteEnv) (w : String)
    (fs0 fs' : String → Option MTime) (dls : List Download) (d' : Downloader)
    (hprep : Downloader.Prepare env ⟨[], w⟩ fs0 dls = .ok (d', fs')) :
    (∀ p, p ∈ dls.map Download.destinationPath →
       Downloader.WasLocalized d' fs' p = true) ∧
    (∀ p, p ∉ dls.map Download.destinationPath →
       ∀ fs2, Downloader.WasLocalized d' fs2 p = false) ∧
    (∀ p fs2, fs2 (pathJoin w p) ≠ fs' (pathJoin w p) →
       Downloader.WasLocalized d' fs2 p = false) ∧
    (∀ (d : Downloader) (fs : String → Option MTime) (p : String),
       Downloader.WasLocalized d fs p = true ↔
         ∃ t, List.lookup p d.downloadTimestamps = some t ∧
           fs (pathJoin d.workdir p) = some t) := by
  have hchar : ∀ (d : Downloader) (fs : String → Option MTime) (p : String),
      Downloader.WasLocalized d fs p = true ↔
        ∃ t, List.lookup p d.downloadTimestamps = some t ∧
          fs (pathJoin d.workdir p) = some t := by
    intro d fs p
    rw [Downloader.WasLocalized]
    cases hfs : fs (pathJoin d.workdir p) with
    | none => simp [hfs]
    | some mt =>
      cases hl : List.lookup p d.downloadTimestamps with
      | none => simp
      | some ot =>
        simp only [beq_iff_eq, Option.some.injEq]
        constructor
        · intro h; exact ⟨ot, rfl, by rw [h]⟩
        · rintro ⟨t, ht1, ht2⟩
          cases ht1
          cases ht2
          rfl
  obtain ⟨hw, hs, _, hmem, hdom⟩ :=
    prepare_invariant env dls ⟨[], w⟩ fs0 d' fs' hprep (by intro p t h; simp [List.lookup] at h)
  refine ⟨?_, ?_, ?_, hchar⟩
  · intro p hp
    obtain ⟨dl, hdl, rfl⟩ := List.mem_map.mp hp
    obtain ⟨t, ht⟩ := hmem dl hdl
    rw [hchar]
    exact ⟨t, ht, by rw [hw]; exact hs _ _ ht⟩
  · intro p hp fs2
    have hnone : List.lookup p d'.downloadTimestamps = none := by
      by_contra hne
      rcases hdom p hne with hmem2 | hne2
      · exact hp hmem2
      · simp [List.lookup] at hne2
    rw [Downloader.WasLocalized, hnone]
    cases fs2 (pathJoin d'.workdir p) <;> rfl
  · intro p fs2 hne
    cases hl : List.lookup p d'.downloadTimestamps with
    | none =>
      rw [Downloader.WasLocalized, hl]
      cases fs2 (pathJoin d'.workdir p) <;> rfl
    | some t =>
      have hfs' : fs' (pathJoin w p) = some t := hs p t hl
      rw [Downloader.WasLocalized, hl, hw]
      cases hfs2 : fs2 (pathJoin w p) with
      | none => rfl
      | some mt =>
        rw [hfs2, hfs'] at hne
        have : ¬ t = mt := fun he => hne (by rw [he])
        simpa [beq_iff_eq] using this

/-- Witness for C2 at concrete inputs: one download staged at `f1` under
workdir `wd` with write time 5; `WasLocalized` is true right after
`Prepare`, false once the file's modification time becomes 6, and false for
the never-staged path `other`. -/
theorem wasLocalized_after_prepare_witness :
    Downloader.WasLocalized ⟨[("f1", 5)], "wd"⟩
        (fun q => if q = "wd/f1" then some 5 else none) "f1" = true ∧
    Downloader.WasLocalized ⟨[("f1", 5)], "wd"⟩
        (fun q => if q = "wd/f1" then some 6 else none) "f1" = false ∧
    Downloader.WasLocalized ⟨[("f1", 5)], "wd"⟩
        (fun q => if q = "wd/f1" then some 5 else none) "other" = false := by
  have h := wasLocalized_after_prepare ⟨fun _ => true, fun _ => 5⟩ "wd"
    (fun _ => none) (fun q => if q = "wd/f1" then some 5 else none)
    [⟨"gs://b/k", "f1", false, false⟩] ⟨[("f1", 5)], "wd"⟩ rfl
  refine ⟨h.1 "f1" (by decide), ?_, h.2.1 "other" (by decide) _⟩
  exact h.2.2.1 "f1" (fun q => if q = "wd/f1" then some 6 else none) (by decide)

/-! ## Execution orchestrator (claims C3, C4)

`Execute`'s effectful steps are replaced by outcome oracles; the run is
summarized as a result plus an ordered list of observable events.  Go's
`defer localizer.Clean()` is registered only after `Prepare` returns
without error, and then fires on every return path of the remainder. -/

/-- Outcome of `cmd.Wait`: the process exited with some code (a non-zero
code surfaces in Go as an `*exec.ExitError`, which `Execute` logs and
swallows), or waiting itself failed with a different error. -/
inductive WaitResult where
  | exited (code : Int)
  | waitFailure (msg : String)
deriving DecidableEq

/-- The error `Execute` returns, tagged by the step that produced it. -/
inductive ExecErr where
  | validationFailed (e : ValidationError)
  | prepareFailed (msg : String)
  | ensureDirFailed (msg : String)
  | prepareCommandFailed (msg : String)
  | startFailed (msg : String)
  | waitFailed (msg : String)
  | writeResultFailed (msg : String)
  | uploadFailed (msg : String)
deriving DecidableEq

/-- Observable events of one `Execute` run, in order. -/
inductive ExecEvent where
  | prepared
  | cleaned
  | started
  | wroteResult (code : Int)
  | uploaded
deriving DecidableEq

/-- Outcome oracles for `Execute`'s effectful steps: `localizer.Prepare`,
`ensureDirExists` on the resolved working path, the capture-file creation
inside `prepareCommand`, `cmd.Start`, `cmd.Wait`, `writeResult` and
`uploadResults`. -/
structure ExecEnv where
  prepareErr : Option String
  ensureDirErr : Option String
  prepareCommandErr : Option String
  startErr : Option String
  waitResult : WaitResult
  writeResultErr : Option String
  uploadErr : Option String

/-- Models the tail of `Execute` after the point where `defer
localizer.Clean()` is registered: `ensureDirExists` on the resolved working
path, `prepareCommand`, `cmd.Start`, `cmd.Wait` — where an `*exec.ExitError`
(any exit code) is logged and execution continues, while any other wait
error returns — then `writeResult` when a result path is set, then
`uploadResults`. -/
def executeAfterPrepare (env : ExecEnv) (params : Parameters) :
    Except ExecErr Unit × List ExecEvent :=
  match env.ensureDirErr with
  | some e => (.error (.ensureDirFailed e), [])
  | none =>
  match env.prepareCommandErr with
  | some e => (.error (.prepareCommandFailed e), [])
  | none =>
  match env.startErr with
  | some e => (.error (.startFailed e), [])
  | none =>
  match env.waitResult with
  | .waitFailure e => (.error (.waitFailed e), [.started])
  | .exited code =>
    if params.resultPath ≠ "" then
      match env.writeResultErr with
      | some e => (.error (.writeResultFailed e), [.started])
      | none =>
        match env.uploadErr with
        | some e => (.error (.uploadFailed e), [.started, .wroteResult code])
        | none => (.ok (), [.started, .wroteResult code, .uploaded])
    else
      match env.uploadErr with
      | some e => (.error (.uploadFailed e), [.started])
      | none => (.ok (), [.started, .uploaded])

/-- Models `Execute`: validate, `localizer.Prepare` (returning on error
before the deferred `Clean` is registered), then the remainder with the
deferred `Clean` firing on every one of its return paths. -/
def Execute (env : ExecEnv) (params : Parameters) :
    Except ExecErr Unit × List ExecEvent :=
  match validateParameters params with
  | some e => (.error (.validationFailed e), [])
  | none =>
    match env.prepareErr with
    | some e => (.error (.prepareFailed e), [.prepared])
    | none =>
      let r := executeAfterPrepare env params
      (r.1, .prepared :: (r.2 ++ [.cleaned]))

theorem cleaned_not_in_tail (env : ExecEnv) (params : Parameters) :
    ExecEvent.cleaned ∉ (executeAfterPrepare env params).2 := by
  obtain ⟨pe, de, pce, se, wr, wre, ue⟩ := env
  cases de <;> cases pce <;> cases se <;> cases wr <;> cases wre <;> cases ue <;>
    by_cases h : params.resultPath = "" <;>
    simp_all [executeAfterPrepare]

/-- Counterexample to claim C3 as stated: with valid parameters and a
failing Localize step, `Execute` returns before the deferred `Clean` is
registered, so `Clean` never runs even though the Localize phase started. -/
theorem clean_skipped_when_prepare_fails :
    ExecEvent.prepared ∈
      (Execute ⟨some "mount failed", none, none, none, .exited 0, none, none⟩
        { uploads := none, downloads := [], dockerImage := "", command := ["true"],
          workingPath := "", resultPath := "", stdoutPath := "", stderrPath := "" }).2 ∧
    ExecEvent.cleaned ∉
      (Execute ⟨some "mount failed", none, none, none, .exited 0, none, none⟩
        { uploads := none, downloads := [], dockerImage := "", command := ["true"],
          workingPath := "", resultPath := "", stdoutPath := "", stderrPath := "" }).2 := by
  decide

/-- Claim C3 amended: the localizer's `Clean` runs exactly once on every
exit path once Localize (`Prepare`) has succeeded, whatever later steps do;
but when validation or `Prepare` itself fails, `Execute` returns without
invoking `Clean`. -/
theorem clean_runs_iff_prepare_succeeded (env : ExecEnv) (params : Parameters) :
    (Execute env params).2.count ExecEvent.cleaned =
      if validateParameters params = none ∧ env.prepareErr = none then 1 else 0 := by
  rw [Execute]
  cases hv : validateParameters params with
  | some e => simp [hv]
  | none =>
    cases hp : env.prepareErr with
    | some e => simp [hp]
    | none =>
      have hni := cleaned_not_in_tail env params
      simp [hp, List.count_cons, List.count_append, List.count_eq_zero.mpr hni]

/-- Claim C4: when the child process starts and exits — with any code — the
orchestrator never returns a start or wait error for that run; with a result
path set and a healthy filesystem the exit code is recorded in the result
document; when the later steps succeed the run ends `.ok` having uploaded;
and only an actual failure to wait on (or start) the process is returned as
an orchestrator error. -/
theorem nonzero_exit_not_an_error (env : ExecEnv) (params : Parameters) (code : Int)
    (hv : validateParameters params = none)
    (hp : env.prepareErr = none)
    (hd : env.ensureDirErr = none)
    (hc : env.prepareCommandErr = none)
    (hs : env.startErr = none)
    (hw : env.waitResult = .exited code) :
    (∀ e, (Execute env params).1 ≠ .error (.startFailed e)) ∧
    (∀ e, (Execute env params).1 ≠ .error (.waitFailed e)) ∧
    (params.resultPath ≠ "" → env.writeResultErr = none →
       ExecEvent.wroteResult code ∈ (Execute env params).2) ∧
    (env.writeResultErr = none → env.uploadErr = none →
       (Execute env params).1 = .ok () ∧ ExecEvent.uploaded ∈ (Execute env params).2) ∧
    (∀ (env2 : ExecEnv) (msg : String),
       env2.prepareErr = none → env2.ensureDirErr = none →
       env2.prepareCommandErr = none → env2.startErr = none →
       env2.waitResult = .waitFailure msg →
       (Execute env2 params).1 = .error (.waitFailed msg)) := by
  obtain ⟨pe, de, pce, se, wr, wre, ue⟩ := env
  simp only at hp hd hc hs hw
  subst hp; subst hd; subst hc; subst hs; subst hw
  refine ⟨?_, ?_, ?_, ?_, ?_⟩
  · intro e
    cases wre <;> cases ue <;> by_cases hr : params.resultPath = "" <;>
      simp_all [Execute, executeAfterPrepare]
  · intro e
    cases wre <;> cases ue <;> by_cases hr : params.resultPath = "" <;>
      simp_all [Execute, executeAfterPrepare]
  · intro hr hwre
    simp only at hwre
    subst hwre
    cases ue <;> simp_all [Execute, executeAfterPrepare]
  · intro hwre hue
    simp only at hwre hue
    subst hwre; subst hue
    by_cases hr : params.resultPath = "" <;> simp_all [Execute, executeAfterPrepare]
  · intro env2 msg h1 h2 h3 h4 h5
    obtain ⟨pe2, de2, pce2, se2, wr2, wre2, ue2⟩ := env2
    simp only at h1 h2 h3 h4 h5
    subst h1; subst h2; subst h3; subst h4; subst h5
    simp [Execute, executeAfterPrepare, hv]

/-- Witness for C4 at concrete inputs: exit code 3 with a result path set;
the run succeeds, records exit code 3, and uploads. -/
theorem nonzero_exit_not_an_error_witness :
    (Execute ⟨none, none, none, none, .exited 3, none, none⟩
        { uploads := none, downloads := [], dockerImage := "", command := ["true"],
          workingPath := "", resultPath := "result.json", stdoutPath := "",
          stderrPath := "" }).1 = .ok () ∧
    ExecEvent.wroteResult 3 ∈
      (Execute ⟨none, none, none, none, .exited 3, none, none⟩
        { uploads := none, downloads := [], dockerImage := "", command := ["true"],
          workingPath := "", resultPath := "result.json", stdoutPath := "",
          stderrPath := "" }).2 ∧
    ExecEvent.uploaded ∈
      (Execute ⟨none, none, none, none, .exited 3, none, none⟩
        { uploads := none, downloads := [], dockerImage := "", command := ["true"],
          workingPath := "", resultPath := "result.json", stdoutPath := "",
          stderrPath := "" }).2 := by
  have h := nonzero_exit_not_an_error ⟨none, none, none, none, .exited 3, none, none⟩
    { uploads := none, downloads := [], dockerImage := "", command := ["true"],
      workingPath := "", resultPath := "result.json", stdoutPath := "", stderrPath := "" }
    3 (by decide) rfl rfl rfl rfl rfl
  exact ⟨(h.2.2.2.1 rfl rfl).1, h.2.2.1 (by decide) rfl, (h.2.2.2.1 rfl rfl).2⟩

/-! ## Mounted-transfer localization (claims C5, C8, C9)

External processes (gcsfuse, umount) and file staging become outcome
oracles; a run is summarized as an outcome plus the ordered external
actions.  Go panics are a distinct outcome, separate from returned
errors. -/

/-- A value returned normally, a normally returned error, or a Go panic. -/
inductive MountOutcome (α : Type) where
  | ok (a : α)
  | err (msg : String)
  | panicked (msg : String)
deriving DecidableEq

/-- Observable external actions of the mounted-transfer strategy. -/
inductive MountEvent where
  | mountCalled (bucket : String)
  | umountCalled (dir : String)
  | copied (src dst : String)
  | symlinked (src dst : String)
deriving DecidableEq

/-- Outcome oracles for the mounted-transfer strategy: the `gcsfuse`
invocation per bucket, the `umount` invocation per mount directory, and the
per-destination copy/symlink (whose failures panic in Go). -/
structure MounterEnv where
  mountErr : String → Option String
  umountErr : String → Option String
  stageErr : String → Option String

/-- Models `GCSMounter.Clean`: unmount each recorded mount in order; a
`cmd.Start`/`cmd.Wait` failure panics, aborting the loop at the first
failing unmount. -/
def mounterClean (env : MounterEnv) : List String → MountOutcome Unit × List MountEvent
  | [] => (.ok (), [])
  | m :: rest =>
    match env.umountErr m with
    | some e => (.panicked e, [.umountCalled m])
    | none =>
      let r := mounterClean env rest
      (r.1, .umountCalled m :: r.2)

/-- The per-bucket mount directory `mount` uses:
`workRootDir/gcsfusemounts/<bucket>`. -/
def mountDirFor (workRootDir bucket : String) : String :=
  pathJoin (pathJoin workRootDir "gcsfusemounts") bucket

/-- The buckets of the downloads' source URLs in download order; `none`
models the `splitGSCPath` panic on a URL the expression does not match. -/
def bucketList : List Download → Option (List String)
  | [] => some []
  | dl :: rest =>
    match splitGSCPath dl.sourceURL with
    | none => none
    | some (b, _) =>
      match bucketList rest with
      | none => none
      | some bs => some (b :: bs)

/-- First-occurrence deduplication.  Go collects the buckets in a map and
ranges over it in unspecified order; the model fixes first-occurrence
order, which no claim depends on. -/
def dedupFirst : List String → List String
  | [] => []
  | b :: rest => b :: (dedupFirst rest).filter (fun x => !(x == b))

/-- The distinct buckets referenced by the downloads. -/
def distinctBuckets (dls : List Download) : Option (List String) :=
  match bucketList dls with
  | none => none
  | some bs => some (dedupFirst bs)

/-- Models the mounting loop of `GCSMounter.Prepare`: mount each distinct
bucket in turn, appending to `d.mounts` after each success; a mount failure
calls `d.Clean()` on the mounts established so far (a panic from that
`Clean` propagates) and then returns the mount error. -/
def mountAll (env : MounterEnv) (workRootDir : String) :
    List String → List String → MountOutcome (List String) × List MountEvent
  | [], mounts => (.ok mounts, [])
  | b :: rest, mounts =>
    match env.mountErr b with
    | some e =>
      let c := mounterClean env mounts
      (match c.1 with
       | .panicked pe => (.panicked pe, .mountCalled b :: c.2)
       | _ => (.err e, .mountCalled b :: c.2))
    | none =>
      let r := mountAll env workRootDir rest (mounts ++ [mountDirFor workRootDir b])
      (r.1, .mountCalled b :: r.2)

/-- Models the staging loop of `GCSMounter.Prepare`: an executable download
panics (`"unimp"`); otherwise the source URL is split again, the file is
staged out of its bucket's mount directory — by relative symlink when
`SymlinkSafe`, by copy otherwise — and either failure panics.  (The
StagingRecord bookkeeping matches the direct variant and is not re-modelled
here; no claim observes it.) -/
def copyAll (env : MounterEnv) (workRootDir workdir : String) :
    List Download → MountOutcome Unit × List MountEvent
  | [] => (.ok (), [])
  | dl :: rest =>
    if dl.executable then (.panicked "unimp", [])
    else
      match splitGSCPath dl.sourceURL with
      | none => (.panicked "no match for url", [])
      | some (bucket, key) =>
        let src := pathJoin (mountDirFor workRootDir bucket) key
        let dest := pathJoin workdir dl.destinationPath
        match env.stageErr dest with
        | some e => (.panicked e, [])
        | none =>
          let ev := if dl.symlinkSafe then MountEvent.symlinked src dest
                    else MountEvent.copied src dest
          let r := copyAll env workRootDir workdir rest
          (r.1, ev :: r.2)

/-- Models `GCSMounter.Prepare`: compute the distinct buckets (a URL the
grammar rejects panics before anything is mounted), mount each distinct
bucket once, then stage every download out of its bucket's mount; on
success the accumulated mount list (the new `d.mounts`) is returned. -/
def mounterPrepare (env : MounterEnv) (workRootDir workdir : String)
    (dls : List Download) : MountOutcome (List String) × List MountEvent :=
  match distinctBuckets dls with
  | none => (.panicked "no match for url", [])
  | some buckets =>
    match mountAll env workRootDir buckets [] with
    | (.ok mounts, mtr) =>
      let c := copyAll env workRootDir workdir dls
      (match c.1 with
       | .ok _ => (.ok mounts, mtr ++ c.2)
       | .err e => (.err e, mtr ++ c.2)
       | .panicked e => (.panicked e, mtr ++ c.2))
    | (other, mtr) => (other, mtr)

theorem mounterClean_ok (env : MounterEnv) :
    ∀ ms : List String, (∀ m ∈ ms, env.umountErr m = none) →
      mounterClean env ms = (.ok (), ms.map MountEvent.umountCalled) := by
  intro ms
  induction ms with
  | nil => intro _; rfl
  | cons m rest ih =>
    intro h
    rw [mounterClean, h m (by simp), ih (fun x hx => h x (by simp [hx]))]
    simp

theorem mounterClean_fail (env : MounterEnv) (m e : String)
    (hm : env.umountErr m = some e) :
    ∀ pre : List String, ∀ post : List String, (∀ p ∈ pre, env.umountErr p = none) →
      mounterClean env (pre ++ m :: post) =
        (.panicked e, (pre ++ [m]).map MountEvent.umountCalled) := by
  intro pre
  induction pre with
  | nil =>
    intro post _
    simp only [List.nil_append]
    rw [mounterClean, hm]
    simp
  | cons p rest ih =>
    intro post hpre
    simp only [List.cons_append]
    rw [mounterClean, hpre p (by simp), ih post (fun x hx => hpre x (by simp [hx]))]
    simp

theorem mountAll_ok (env : MounterEnv) (root : String) :
    ∀ bs acc : List String, (∀ b ∈ bs, env.mountErr b = none) →
      mountAll env root bs acc =
        (.ok (acc ++ bs.map (mountDirFor root)), bs.map MountEvent.mountCalled) := by
  intro bs
  induction bs with
  | nil => intro acc _; simp [mountAll]
  | cons b rest ih =>
    intro acc h
    rw [mountAll, h b (by simp),
      ih (acc ++ [mountDirFor root b]) (fun x hx => h x (by simp [hx]))]
    simp

theorem mountAll_fail (env : MounterEnv) (root b e : String)
    (hb : env.mountErr b = some e) (humount : ∀ m, env.umountErr m = none) :
    ∀ pre : List String, ∀ post acc : List String, (∀ p ∈ pre, env.mountErr p = none) →
      mountAll env root (pre ++ b :: post) acc =
        (.err e, (pre ++ [b]).map MountEvent.mountCalled ++
          (acc ++ pre.map (mountDirFor root)).map MountEvent.umountCalled) := by
  intro pre
  induction pre with
  | nil =>
    intro post acc _
    simp only [List.nil_append]
    rw [mountAll, hb, mounterClean_ok env acc (fun x _ => humount x)]
    simp
  | cons p rest ih =>
    intro post acc hpre
    simp only [List.cons_append]
    rw [mountAll, hpre p (by simp),
      ih post (acc ++ [mountDirFor root p]) (fun x hx => hpre x (by simp [hx]))]
    simp

theorem copyAll_no_mount_events (env : MounterEnv) (r w : String) :
    ∀ (dls : List Download) (b : String),
      MountEvent.mountCalled b ∉ (copyAll env r w dls).2 := by
  intro dls
  induction dls with
  | nil => intro b; simp [copyAll]
  | cons dl rest ih =>
    intro b
    rw [copyAll]
    split
    · simp
    · cases hsp : splitGSCPath dl.sourceURL with
      | none => simp
      | some bk =>
        obtain ⟨bucket, key⟩ := bk
        cases hst : env.stageErr (pathJoin w dl.destinationPath) with
        | some e => simp [hst]
        | none =>
          by_cases hsl : dl.symlinkSafe <;> simp [hst, hsl, ih b]

theorem bucketList_all_some :
    ∀ (dls : List Download) (bs : List String), bucketList dls = some bs →
      ∀ dl ∈ dls, (splitGSCPath dl.sourceURL).isSome := by
  intro dls
  induction dls with
  | nil => intro bs _ dl hdl; simp at hdl
  | cons d rest ih =>
    intro bs h dl hdl
    rw [bucketList] at h
    cases hsp : splitGSCPath d.sourceURL with
    | none => rw [hsp] at h; exact absurd h (by simp)
    | some bk =>
      rw [hsp] at h
      cases hbl : bucketList rest with
      | none => rw [hbl] at h; exact absurd h (by simp)
      | some bs2 =>
        rcases List.mem_cons.mp hdl with rfl | hmem
        · simp [hsp]
        · exact ih bs2 hbl dl hmem

theorem copyAll_panics_on_executable (env : MounterEnv) (r w : String)
    (hstage : ∀ p, env.stageErr p = none) :
    ∀ dls : List Download, (∀ dl ∈ dls, (splitGSCPath dl.sourceURL).isSome) →
      (∃ dl ∈ dls, dl.executable = true) →
      (copyAll env r w dls).1 = .panicked "unimp" := by
  intro dls
  induction dls with
  | nil => intro _ hex; simp at hex
  | cons dl rest ih =>
    intro hsp hex
    rw [copyAll]
    by_cases hx : dl.executable
    · simp [hx]
    · obtain ⟨⟨bucket, key⟩, hbk⟩ := Option.isSome_iff_exists.mp (hsp dl (by simp))
      simp only [if_neg hx, hbk, hstage (pathJoin w dl.destinationPath)]
      have hex2 : ∃ d ∈ rest, d.executable = true := by
        rcases hex with ⟨d, hd, hde⟩
        rcases List.mem_cons.mp hd with rfl | hmem
        · exact absurd hde hx
        · exact ⟨d, hmem, hde⟩
      simpa using ih (fun x hx2 => hsp x (by simp [hx2])) hex2

theorem dedupFirst_nodup : ∀ l : List String, (dedupFirst l).Nodup := by
  intro l
  induction l with
  | nil => simp [dedupFirst]
  | cons b rest ih =>
    rw [dedupFirst]
    refine List.nodup_cons.mpr ⟨?_, ih.filter _⟩
    intro hmem
    have := List.of_mem_filter hmem
    simp at this

theorem distinctBuckets_nodup {dls : List Download} {buckets : List String}
    (h : distinctBuckets dls = some buckets) : buckets.Nodup := by
  rw [distinctBuckets] at h
  cases hbl : bucketList dls with
  | none => rw [hbl] at h; exact absurd h (by simp)
  | some bs =>
    rw [hbl] at h
    cases h
    exact dedupFirst_nodup bs

theorem count_map_mountCalled (bs : List String) (b : String) :
    (bs.map MountEvent.mountCalled).count (.mountCalled b) = bs.count b := by
  induction bs with
  | nil => rfl
  | cons x rest ih =>
    simp only [List.map_cons, List.count_cons, ih]
    congr 1
    by_cases hxb : b = x <;> simp [hxb]

/-- Claim C5: with every mount succeeding, `Prepare` invokes the mount
utility exactly once per distinct bucket referenced by the downloads; and
when the mount of a bucket fails after earlier buckets were mounted,
`Clean` unmounts exactly the established mounts before the mount error
propagates out of `Prepare`. -/
theorem mount_once_per_bucket_and_clean_on_failure
    (env : MounterEnv) (workRootDir workdir : String) (dls : List Download)
    (buckets : List String) (hb : distinctBuckets dls = some buckets) :
    ((∀ b, env.mountErr b = none) → ∀ b,
       (mounterPrepare env workRootDir workdir dls).2.count (.mountCalled b) =
         if b ∈ buckets then 1 else 0) ∧
    (∀ pre b post e, buckets = pre ++ b :: post →
       (∀ p ∈ pre, env.mountErr p = none) → env.mountErr b = some e →
       (∀ m, env.umountErr m = none) →
       mounterPrepare env workRootDir workdir dls =
         (.err e, (pre ++ [b]).map MountEvent.mountCalled ++
           (pre.map (mountDirFor workRootDir)).map MountEvent.umountCalled)) := by
  constructor
  · intro hmount b
    simp only [mounterPrepare, hb,
      mountAll_ok env workRootDir buckets [] (fun x _ => hmount x)]
    cases hc : (copyAll env workRootDir workdir dls).1 <;>
      · simp only [hc, List.nil_append, List.count_append, count_map_mountCalled,
          List.count_eq_zero.mpr (copyAll_no_mount_events env workRootDir workdir dls b)]
        by_cases hmem : b ∈ buckets
        · simp [hmem, List.count_eq_one_of_mem (distinctBuckets_nodup hb) hmem]
        · simp [hmem, List.count_eq_zero.mpr hmem]
  · intro pre b post e hsplit hpre hmb humount
    rw [hsplit] at hb
    simp only [mounterPrepare, hb,
      mountAll_fail env workRootDir b e hmb humount pre post [] hpre]
    simp

/-- Witness for C5 at concrete inputs: downloads over buckets `b1` and
`b2`.  With both mounts succeeding each bucket is mounted exactly once;
with `b2`'s mount failing after `b1` was mounted, `b1`'s mount directory is
unmounted and the mount error is returned. -/
theorem mount_once_per_bucket_and_clean_on_failure_witness :
    (mounterPrepare ⟨fun _ => none, fun _ => none, fun _ => none⟩ "root" "wd"
        [⟨"gs://b1/k", "f1", false, false⟩, ⟨"gs://b2/k", "f2", false, false⟩]).2.count
        (.mountCalled "b1") = 1 ∧
    mounterPrepare
        ⟨fun b => if b = "b2" then some "mount failed" else none, fun _ => none, fun _ => none⟩
        "root" "wd"
        [⟨"gs://b1/k", "f1", false, false⟩, ⟨"gs://b2/k", "f2", false, false⟩] =
      (.err "mount failed",
        [.mountCalled "b1", .mountCalled "b2", .umountCalled "root/gcsfusemounts/b1"]) := by
  constructor
  · exact ((mount_once_per_bucket_and_clean_on_failure
      ⟨fun _ => none, fun _ => none, fun _ => none⟩ "root" "wd"
      [⟨"gs://b1/k", "f1", false, false⟩, ⟨"gs://b2/k", "f2", false, false⟩]
      ["b1", "b2"] (by decide)).1 (fun _ => rfl) "b1").trans (by decide)
  · exact ((mount_once_per_bucket_and_clean_on_failure
      ⟨fun b => if b = "b2" then some "mount failed" else none, fun _ => none, fun _ => none⟩
      "root" "wd"
      [⟨"gs://b1/k", "f1", false, false⟩, ⟨"gs://b2/k", "f2", false, false⟩]
      ["b1", "b2"] (by decide)).2 ["b1"] "b2" [] "mount failed" rfl
      (by decide) (by decide) (fun _ => rfl)).trans (by decide)

/-- Counterexample to claim C8 as stated: when the first unmount fails,
`Clean` panics immediately and the second mount is never attempted. -/
theorem clean_aborts_on_first_umount_failure :
    mounterClean
        ⟨fun _ => none, fun m => if m = "m1" then some "umount failed" else none, fun _ => none⟩
        ["m1", "m2"] =
      (.panicked "umount failed", [.umountCalled "m1"]) ∧
    MountEvent.umountCalled "m2" ∉
      (mounterClean
        ⟨fun _ => none, fun m => if m = "m1" then some "umount failed" else none, fun _ => none⟩
        ["m1", "m2"]).2 := by
  decide

/-- Claim C8 amended: `Clean` attempts unmounts in order; when all succeed
every mount is unmounted; the first failing unmount is reported as a panic,
which aborts `Clean`, so the remaining mounts are not attempted. -/
theorem clean_umount_behavior (env : MounterEnv) (mounts : List String) :
    ((∀ m ∈ mounts, env.umountErr m = none) →
       mounterClean env mounts = (.ok (), mounts.map MountEvent.umountCalled)) ∧
    (∀ pre m post e, mounts = pre ++ m :: post →
       (∀ p ∈ pre, env.umountErr p = none) → env.umountErr m = some e →
       mounterClean env mounts =
         (.panicked e, (pre ++ [m]).map MountEvent.umountCalled)) := by
  constructor
  · exact mounterClean_ok env mounts
  · intro pre m post e hsplit hpre hm
    rw [hsplit]
    exact mounterClean_fail env m e hm pre post hpre

/-- Witness for the amended C8 at concrete inputs: with `m2`'s unmount
failing, `m1` is unmounted, then `Clean` panics without attempting `m3`. -/
theorem clean_umount_behavior_witness :
    mounterClean
        ⟨fun _ => none, fun m => if m = "m2" then some "boom" else none, fun _ => none⟩
        ["m1", "m2", "m3"] =
      (.panicked "boom", [.umountCalled "m1", .umountCalled "m2"]) := by
  exact ((clean_umount_behavior
    ⟨fun _ => none, fun m => if m = "m2" then some "boom" else none, fun _ => none⟩
    ["m1", "m2", "m3"]).2 ["m1"] "m2" ["m3"] "boom" rfl (by decide) (by decide)).trans
    (by decide)

/-- Counterexample to claim C9 as stated: an executable download makes the
mounted-transfer `Prepare` panic (`"unimp"`); the failure is a runtime
panic, not a normally returned error value. -/
theorem executable_download_panics_not_error :
    (mounterPrepare ⟨fun _ => none, fun _ => none, fun _ => none⟩ "root" "wd"
        [⟨"gs://b/k", "f", true, false⟩]).1 = .panicked "unimp" ∧
    ∀ e, (mounterPrepare ⟨fun _ => none, fun _ => none, fun _ => none⟩ "root" "wd"
        [⟨"gs://b/k", "f", true, false⟩]).1 ≠ MountOutcome.err e := by
  refine ⟨by decide, ?_⟩
  intro e h
  rw [show (mounterPrepare ⟨fun _ => none, fun _ => none, fun _ => none⟩ "root" "wd"
      [⟨"gs://b/k", "f", true, false⟩]).1 = .panicked "unimp" from by decide] at h
  exact MountOutcome.noConfusion h

/-- Claim C9 amended: every mounted-transfer `Prepare` whose downloads
include one with the executable flag fails fast when the staging loop
reaches it — via the panic `"unimp"`, never by silently ignoring the flag —
and the failure is a panic, not a normally returned error. -/
theorem executable_download_panics (env : MounterEnv) (workRootDir workdir : String)
    (dls : List Download) (buckets : List String)
    (hb : distinctBuckets dls = some buckets)
    (hm : ∀ b, env.mountErr b = none)
    (hstage : ∀ p, env.stageErr p = none)
    (hex : ∃ dl ∈ dls, dl.executable = true) :
    (mounterPrepare env workRootDir workdir dls).1 = .panicked "unimp" ∧
    ∀ e, (mounterPrepare env workRootDir workdir dls).1 ≠ MountOutcome.err e := by
  have hsome : ∀ dl ∈ dls, (splitGSCPath dl.sourceURL).isSome := by
    rw [distinctBuckets] at hb
    cases hbl : bucketList dls with
    | none => rw [hbl] at hb; exact absurd hb (by simp)
    | some bs => exact bucketList_all_some dls bs hbl
  have hcopy := copyAll_panics_on_executable env workRootDir workdir hstage dls hsome hex
  have hmain : (mounterPrepare env workRootDir workdir dls).1 = .panicked "unimp" := by
    simp only [mounterPrepare, hb,
      mountAll_ok env workRootDir buckets [] (fun x _ => hm x), hcopy]
  exact ⟨hmain, fun e h => MountOutcome.noConfusion ((hmain.symm.trans h))⟩

/-- Witness for the amended C9 at concrete inputs: a two-download `Prepare`
whose second download is executable panics with `"unimp"`. -/
theorem executable_download_panics_witness :
    (mounterPrepare ⟨fun _ => none, fun _ => none, fun _ => none⟩ "root" "wd"
        [⟨"gs://b/k1", "f1", false, false⟩, ⟨"gs://b/k2", "f2", true, false⟩]).1 =
      .panicked "unimp" :=
  (executable_download_panics ⟨fun _ => none, fun _ => none, fun _ => none⟩ "root" "wd"
    [⟨"gs://b/k1", "f1", false, false⟩, ⟨"gs://b/k2", "f2", true, false⟩]
    ["b"] (by decide) (fun _ => rfl) (fun _ => rfl)
    ⟨⟨"gs://b/k2", "f2", true, false⟩, by decide, rfl⟩).1

/-! ## Output capture (claim C6) -/

/-- Where a stream of the child process is sent: passthrough to the
orchestrator's own stream, or a file handle created at a path.  Handles
carry an identity so that one handle shared by both streams is
distinguishable from two handles over equal paths. -/
inductive Sink where
  | passthrough
  | file (path : String) (handle : Nat)
deriving DecidableEq

/-- Models the `exec.Cmd` fields `prepareCommand` configures.  File
creations are modelled as succeeding; their failures are the
`prepareCommandErr` oracle of the orchestrator model. -/
structure Cmd where
  args : List String
  dir : String
  stdout : Sink
  stderr : Sink
deriving DecidableEq

/-- Models `prepareCommand`.  Stdout: a created file at
`workdir/StdoutPath` when a stdout path is set, else the orchestrator's own
stdout.  The whole stderr redirection is guarded by `StdoutPath != ""`:
inside the guard, a stderr path equal to the stdout path shares stdout's
handle and a different one gets its own created file; when no stdout path
is set, stderr goes to the orchestrator's own stderr regardless of the
stderr path. -/
def prepareCommand (workdir : String) (command : List String)
    (workingPath stdoutPath stderrPath : String) : Cmd :=
  let stdout := if stdoutPath ≠ "" then Sink.file (pathJoin workdir stdoutPath) 0
                else Sink.passthrough
  let stderr :=
    if stdoutPath ≠ "" then
      if stderrPath = stdoutPath then stdout
      else Sink.file (pathJoin workdir stderrPath) 1
    else Sink.passthrough
  { args := command, dir := workingPath, stdout := stdout, stderr := stderr }

/-- Counterexample to claim C6 as stated: with a stderr path given but no
stdout path, stderr is not redirected to a file at that path — it passes
through to the orchestrator's own stderr. -/
theorem stderr_passthrough_when_no_stdout_path :
    (prepareCommand "wd" ["cmd"] "" "" "err.txt").stderr = Sink.passthrough ∧
    ∀ p h, (prepareCommand "wd" ["cmd"] "" "" "err.txt").stderr ≠ Sink.file p h := by
  refine ⟨by decide, ?_⟩
  intro p h hq
  rw [show (prepareCommand "wd" ["cmd"] "" "" "err.txt").stderr = Sink.passthrough
    from by decide] at hq
  exact Sink.noConfusion hq

/-- Claim C6 amended: when a stdout path is given, a stderr path equal to it
makes both streams share stdout's single file handle (preserving their
interleaving in one file), and a different stderr path gets its own created
file at `workdir/stderrPath`; when no stdout path is given, stderr passes
through to the orchestrator's stderr regardless of the stderr path. -/
theorem stderr_redirect_amended (workdir : String) (command : List String)
    (workingPath stdoutPath stderrPath : String) (hs : stdoutPath ≠ "") :
    (prepareCommand workdir command workingPath stdoutPath stderrPath).stdout =
      Sink.file (pathJoin workdir stdoutPath) 0 ∧
    (stderrPath = stdoutPath →
       (prepareCommand workdir command workingPath stdoutPath stderrPath).stderr =
         (prepareCommand workdir command workingPath stdoutPath stderrPath).stdout) ∧
    (stderrPath ≠ stdoutPath →
       (prepareCommand workdir command workingPath stdoutPath stderrPath).stderr =
         Sink.file (pathJoin workdir stderrPath) 1 ∧
       (prepareCommand workdir command workingPath stdoutPath stderrPath).stderr ≠
         (prepareCommand workdir command workingPath stdoutPath stderrPath).stdout) ∧
    (∀ ep2, (prepareCommand workdir command workingPath "" ep2).stderr =
       Sink.passthrough) := by
  refine ⟨by simp [prepareCommand, hs], ?_, ?_, by intro ep2; simp [prepareCommand]⟩
  · intro he
    simp [prepareCommand, hs, he]
  · intro he
    constructor
    · simp [prepareCommand, hs, he]
    · simp [prepareCommand, hs, he]

/-- Witness for the amended C6 at concrete inputs: equal paths share one
handle; distinct paths get distinct files. -/
theorem stderr_redirect_amended_witness :
    (prepareCommand "wd" ["c"] "" "o.txt" "o.txt").stderr =
      (prepareCommand "wd" ["c"] "" "o.txt" "o.txt").stdout ∧
    (prepareCommand "wd" ["c"] "" "o.txt" "e.txt").stderr =
      Sink.file "wd/e.txt" 1 := by
  constructor
  · exact (stderr_redirect_amended "wd" ["c"] "" "o.txt" "o.txt" (by decide)).2.1 rfl
  · exact ((stderr_redirect_amended "wd" ["c"] "" "o.txt" "e.txt" (by decide)).2.2.1
      (by decide)).1.trans (by decide)

end Shepherd
